import Mathlib

/-!
Verification of the path-router component of the ts-std repository.

The definitions below are a shallow embedding of the TypeScript source:

* `sanitizePath`, `trimStart`, `trimEnd` embed the path-sanitizing utility
  and the string helpers it uses (src/string.tsx).
* `parseRoute` embeds the `Route` constructor, `findHighestPriorityRoute`
  embeds the static resolver, `constructTrie`/`buildNode` embed the
  breadth-first trie builder, and `matchPath` embeds `Router.match`.

JavaScript objects used as dictionaries (trie children, params) are
modelled as association lists that preserve insertion order; JavaScript
exceptions are modelled with `Except`.
-/

set_option maxHeartbeats 1000000

namespace TsStd

/-! ### Strings

JavaScript strings are modelled by Lean `String` (in this Lean version a
`String` is a list of characters; all inputs in the claims are ASCII, where
JavaScript's UTF-16 view and Lean's codepoint view agree).
-/

/-- Embeds `self.startsWith(pre)`. -/
def strStartsWith (self pre : String) : Bool :=
  pre.data.isPrefixOf self.data

/-- Embeds `self.endsWith(suf)`. -/
def strEndsWith (self suf : String) : Bool :=
  suf.data.isSuffixOf self.data

/-- Embeds `self.substring(n)` for ASCII strings. -/
def strDrop (self : String) (n : Nat) : String :=
  ⟨self.data.drop n⟩

/-- Embeds `self.substring(0, self.length - n)` for ASCII strings. -/
def strDropRight (self : String) (n : Nat) : String :=
  ⟨self.data.take (self.data.length - n)⟩

/-- Embeds `pattern.includes("//")`: the string contains two consecutive
slash characters. -/
def hasDoubleSlash (s : String) : Bool :=
  go s.data
where
  go : List Char → Bool
    | '/' :: '/' :: _ => true
    | _ :: rest => go rest
    | [] => false

/-- Embeds `path.split(sep)` for a single-character separator: JavaScript's
split, in particular `"".split("/") = [""]`. -/
def splitChar (sep : Char) : List Char → List (List Char)
  | [] => [[]]
  | c :: rest =>
    let r := splitChar sep rest
    if c = sep then [] :: r
    else
      match r with
      | h :: t => (c :: h) :: t
      | [] => [[c]]

/-- Embeds `path.split("/")`. -/
def jsSplit (s : String) (sep : Char) : List String :=
  (splitChar sep s.data).map (fun l => ⟨l⟩)

/-- Embeds `$String.trimStart` (src/string.tsx): repeatedly strips `pattern`
from the front. The source loop runs forever on an empty pattern; the fuel
returns the input unchanged in that case, and is never exhausted for the
nonempty patterns the router uses. -/
def trimStartAux : Nat → String → String → String
  | 0, self, _ => self
  | fuel + 1, self, pat =>
    if strStartsWith self pat then trimStartAux fuel (strDrop self pat.data.length) pat
    else self

/-- Embeds `$String.trimStart(self, pattern)`. -/
def trimStart (self pat : String) : String :=
  trimStartAux (self.data.length + 1) self pat

/-- Embeds `$String.trimEnd` (src/string.tsx): repeatedly strips `pattern`
from the end. -/
def trimEndAux : Nat → String → String → String
  | 0, self, _ => self
  | fuel + 1, self, pat =>
    if strEndsWith self pat then trimEndAux fuel (strDropRight self pat.data.length) pat
    else self

/-- Embeds `$String.trimEnd(self, pattern)`. -/
def trimEnd (self pat : String) : String :=
  trimEndAux (self.data.length + 1) self pat

/-- Embeds `.replaceAll(/\/{2,}/g, "")`: every maximal run of two or more
slash characters is replaced by the empty string (note: by the empty
string, not by a single slash). Each step consumes at least one character,
so a fuel of the input length suffices. -/
def stripSlashRunsAux : Nat → List Char → List Char
  | 0, l => l
  | _ + 1, [] => []
  | fuel + 1, '/' :: '/' :: rest => stripSlashRunsAux fuel (rest.dropWhile (· = '/'))
  | fuel + 1, c :: rest => c :: stripSlashRunsAux fuel rest

def stripSlashRuns (l : List Char) : List Char :=
  stripSlashRunsAux (l.length + 1) l

/-- Embeds `sanitizePath` (the router module):
`$String.trimEnd($String.trimStart(path, "/"), "/").replaceAll(/\/{2,}/g, "")`. -/
def sanitizePath (path : String) : String :=
  ⟨stripSlashRuns (trimEnd (trimStart path "/") "/").data⟩

/-! ### Route data model -/

/-- One entry of `Route.segments`, whose TypeScript type is
`string | Param`: either a plain string or the module-level `param`
symbol. -/
inductive Seg where
  | lit (s : String)
  | param
  deriving DecidableEq

/-- Embeds the `Route` class fields: the unaltered pattern, the segment
matcher list, the param-name-to-index map (an insertion-ordered object),
and the trailing-splat flag. -/
structure Route where
  pattern : String
  segments : List Seg
  params : List (String × Nat)
  matchesSubPaths : Bool
  deriving DecidableEq

/-- The errors the router code can raise. The first four constructors
correspond to the `throw new Error(...)` sites and carry the data
interpolated into the message. `typeError` models a JavaScript TypeError
raised by an object-protocol collision (reading a property of `undefined`
during matching, or calling a shadowed `hasOwnProperty`); it carries the
property key involved. `outOfFuel` is the artificial fuel exhaustion
marker of the embedding; it is proved unreachable. -/
inductive RouteError where
  | invalidSlashes (pat : String)
  | misplacedWildcard (pat : String)
  | duplicateParamName (pat name : String)
  | duplicateRoute (pat1 pat2 : String)
  | typeError (key : String)
  | outOfFuel
  deriving DecidableEq

/-- Effectful map over a list, evaluated left to right, stopping at the
first error: the evaluation order of `routes.map(...)` and of the
per-child work in the trie builder. -/
def mapME (f : α → Except RouteError β) : List α → Except RouteError (List β)
  | [] => .ok []
  | x :: xs => do
    let y ← f x
    let ys ← mapME f xs
    pure (y :: ys)

/-- Embeds the segment loop of the `Route` constructor:
`for (const [i, segment] of patternSegments.entries()) { ... }`.

The source pushes `segments.push(param)` where `param` is the local
`const param = segment.substring(1)` — a string — which shadows the
module-level `const param = Symbol(":param")`. The segment list therefore
receives the literal param-name string, `Seg.lit name`, not the
`Seg.param` marker.

The `params` object is modelled here as a plain own-key map;
`jsParseSegments` below additionally models the `Object.prototype`
interactions (the silent `__proto__` assignment and the `hasOwnProperty`
shadowing) the code is exposed to. -/
def parseSegments (pat : String) :
    Nat → List String → List Seg → List (String × Nat) →
    Except RouteError (List Seg × List (String × Nat))
  | _, [], segs, ps => .ok (segs, ps)
  | i, s :: rest, segs, ps =>
    if s = "*" then .error (.misplacedWildcard pat)
    else if strStartsWith s ":" then
      let name := strDrop s 1
      if ps.any (fun p => p.1 = name) then .error (.duplicateParamName pat name)
      else parseSegments pat (i + 1) rest (segs ++ [.lit name]) (ps ++ [(name, i)])
    else parseSegments pat (i + 1) rest (segs ++ [.lit s]) ps

/-- Embeds the `Route` constructor: slash validation, trailing `*` pop,
then the segment loop. -/
def parseRoute (pat : String) : Except RouteError Route :=
  if strStartsWith pat "/" || strEndsWith pat "/" || hasDoubleSlash pat then
    .error (.invalidSlashes pat)
  else
    let patternSegments := jsSplit pat '/'
    let popped := patternSegments.getLast? = some "*"
    let segs := if popped then patternSegments.dropLast else patternSegments
    do
      let (segments, ps) ← parseSegments pat 0 segs [] []
      pure ⟨pat, segments, ps, popped⟩

/-! ### Precedence resolver -/

/-- Embeds the inner `for (let i = 0; ...)` loop of
`Route.findHighestPriorityRoute`, which walks the two segment lists in
parallel up to `best.segments.length` and compares only whether each side
is the `param` symbol. `some true` means `route` becomes the new best,
`some false` means `best` is kept, `none` means the loop fell through
(equal priority, an error). Indexing past the end of `route.segments`
yields JavaScript `undefined`, which is not the symbol. -/
def compareSegs : List Seg → List Seg → Option Bool
  | [], _ => none
  | b :: bs, r :: rs =>
    if b = .param ∧ r ≠ .param then some true
    else if b ≠ .param ∧ r = .param then some false
    else compareSegs bs rs
  | b :: bs, [] =>
    if b = .param then some true else compareSegs bs []

/-- The `compareRoutes:` labelled loop of `findHighestPriorityRoute`,
carrying the current `best`. -/
def fhprGo (best : Route) : List Route → Except RouteError Route
  | [] => .ok best
  | route :: rest =>
    match compareSegs best.segments route.segments with
    | some true => fhprGo route rest
    | some false => fhprGo best rest
    | none => .error (.duplicateRoute best.pattern route.pattern)

/-- Embeds `Route.findHighestPriorityRoute`: `null` on an empty input,
otherwise the scan with a running best. -/
def findHighestPriorityRoute : List Route → Except RouteError (Option Route)
  | [] => .ok none
  | r :: rest => (fhprGo r rest).map some

/-! ### Trie -/

/-- The stored `node.match` record: the winning pattern and its
name-to-index param map. -/
structure NodeMatch where
  route : String
  params : List (String × Nat)
  deriving DecidableEq

/-- Embeds `TrieNode`. The children object holds literal-string keys and
the distinguished `param` symbol key in one map, modelled as an
association list over `Seg`. The interface declares a `matchesSubPaths`
field, but `constructTrie` creates every node as
`{ match: null, children: {} }` without it, so reading it always yields
`undefined` (falsy); the builder therefore stores `false` here. -/
inductive TrieNode where
  | mk : Option NodeMatch → List (Seg × TrieNode) → Bool → TrieNode

def TrieNode.matchData : TrieNode → Option NodeMatch
  | .mk m _ _ => m

def TrieNode.children : TrieNode → List (Seg × TrieNode)
  | .mk _ c _ => c

def TrieNode.matchesSubPaths : TrieNode → Bool
  | .mk _ _ b => b

/-- Own-property lookup in a node's children object. A real JavaScript
property read also falls through to `Object.prototype` when no own key
exists; `jsChildRead` below models that fallthrough, which `Router.match`
is exposed to. The own-property view is exact for segments that are not
`Object.prototype` member names. -/
def lookupChild (children : List (Seg × TrieNode)) (k : Seg) : Option TrieNode :=
  (children.find? (fun p => p.1 = k)).map (fun p => p.2)

/-- The exact-match test of the trie builder at depth `i`:
`route.segments.length === i || (i > route.segments.length && route.matchesSubPaths)`. -/
def isExactAt (i : Nat) (r : Route) : Bool :=
  r.segments.length = i ∨ (i > r.segments.length ∧ r.matchesSubPaths)

/-- The `nextSegments` set at depth `i`: an insertion-ordered
deduplicating collection of `route.segments[i]` over the non-exact routes.
(A non-exact route without a segment at `i` contributes nothing; such
routes never reach a node in the first place.) -/
def nextSegmentsGo (i : Nat) : List Route → List Seg → List Seg
  | [], acc => acc
  | r :: rest, acc =>
    nextSegmentsGo i rest
      (if isExactAt i r then acc
       else
         match r.segments.get? i with
         | some s => if s ∈ acc then acc else acc ++ [s]
         | none => acc)

def nextSegmentsAt (i : Nat) (routes : List Route) : List Seg :=
  nextSegmentsGo i routes []

/-- The routes forwarded to the child for `seg`:
`route.segments[i] === segment || route.segments[i] === param`. -/
def childRoutesAt (i : Nat) (seg : Seg) (routes : List Route) : List Route :=
  routes.filter (fun r => r.segments.get? i = some seg ∨ r.segments.get? i = some .param)

/-- One work item of `constructTrie`'s queue, computing the node for the
given depth and route set and, recursively, its subtree. The source
processes work items through a breadth-first queue and mutates the
pre-created nodes; the computed tree is identical. The fuel only serves
Lean's termination checker and is proved sufficient. -/
def buildNode : Nat → Nat → List Route → Except RouteError TrieNode
  | 0, _, _ => .error .outOfFuel
  | fuel + 1, i, routes =>
    match findHighestPriorityRoute (routes.filter (isExactAt i)) with
    | .error e => .error e
    | .ok best =>
      match mapME (fun seg => (buildNode fuel (i + 1) (childRoutesAt i seg routes)).map
          (fun child => (seg, child))) (nextSegmentsAt i routes) with
      | .error e => .error e
      | .ok children => .ok (.mk (best.map (fun r => ⟨r.pattern, r.params⟩)) children false)

/-- An upper bound on the segment count of any route in the list. -/
def maxSegmentsLength (routes : List Route) : Nat :=
  routes.foldr (fun r acc => max r.segments.length acc) 0

/-- Embeds `constructTrie`. -/
def constructTrie (routes : List Route) : Except RouteError TrieNode :=
  buildNode (maxSegmentsLength routes + 1) 0 routes

/-- Embeds the `Router` constructor:
`constructTrie(routes.map((pattern) => new Route(pattern)))`. -/
def constructRouter (patterns : List String) : Except RouteError TrieNode := do
  let routes ← mapME parseRoute patterns
  constructTrie routes

/-! ### Matcher -/

/-- The match-time result. `params` is the spread
`{...mapped params, ...(subPath && { "*": subPath })}` in enumeration
order. -/
structure RouteMatch where
  route : String
  params : List (String × String)
  deriving DecidableEq

/-- The `...(subPath && { "*": subPath })` spread: the key is added only
when `subPath` is set and truthy (the empty string is falsy). -/
def subPathEntry : Option String → List (String × String)
  | some sp => if sp = "" then [] else [("*", sp)]
  | none => []

/-- The segment walk of `Router.match`: literal child first, then the
param child, then the splat break (which records the remaining segments
joined by `/`), else `null`. Returns the landing node and the captured
sub-path. -/
def walkTrie : TrieNode → List String → Option (TrieNode × Option String)
  | node, [] => some (node, none)
  | node, seg :: rest =>
    match lookupChild node.children (.lit seg) with
    | some child => walkTrie child rest
    | none =>
      match lookupChild node.children .param with
      | some child => walkTrie child rest
      | none =>
        if node.matchesSubPaths then
          some (node, some (String.intercalate "/" (seg :: rest)))
        else none

/-- Embeds `Router.match(path)`: split the path, walk the trie, then
resolve each param's recorded index against the input segments
(`$Object.map(current.match.params, (_, index) => segments[index])`) and
append the sub-path capture. An out-of-range index would yield JavaScript
`undefined`; it is modelled by `""` and never occurs on built tries.
Child lookups use the own-property view; `jsMatchPath` below is the
prototype-chain-faithful model. -/
def matchPath (trie : TrieNode) (path : String) : Option RouteMatch :=
  let segments := jsSplit path '/'
  match walkTrie trie segments with
  | none => none
  | some (node, subPath) =>
    match node.matchData with
    | none => none
    | some m =>
      some ⟨m.route, m.params.map (fun p => (p.1, segments.getD p.2 "")) ++ subPathEntry subPath⟩

/-- Construct a router from patterns and match one path against it. -/
def routerMatch (patterns : List String) (path : String) :
    Except RouteError (Option RouteMatch) := do
  let t ← constructRouter patterns
  pure (matchPath t path)

end TsStd

namespace TsStd

/-- Equivalence of trie nodes up to the ordering of the child lists: same
match record, same splat flag, and children defined for the same keys with
equivalent subtrees. Two tries built from permuted route lists agree up to
this relation, and the matcher cannot distinguish equivalent tries. -/
inductive TrieEquiv : TrieNode → TrieNode → Prop where
  | mk : ∀ (m1 m2 : Option NodeMatch) (c1 c2 : List (Seg × TrieNode)) (b1 b2 : Bool),
      m1 = m2 → b1 = b2 →
      (∀ k, (lookupChild c1 k).isSome = (lookupChild c2 k).isSome) →
      (∀ k t1 t2, lookupChild c1 k = some t1 → lookupChild c2 k = some t2 →
        TrieEquiv t1 t2) →
      TrieEquiv (.mk m1 c1 b1) (.mk m2 c2 b2)

/-! ### Faithful JavaScript object semantics

The definitions above model object-as-dictionary reads and writes with
own-key association lists. Four claims are sensitive to the parts of
JavaScript's object protocol that this abstraction drops — the
`Object.prototype` fallthrough on reads and the inherited `__proto__`
accessor on writes — so the variants below model them. -/

/-- The own property names of `Object.prototype` (as in Node.js and every
major engine, Annex B included). Reading any of these keys from an object
literal that lacks an own entry yields a truthy inherited value: the
methods are functions, and `__proto__` is an accessor returning the
prototype object. -/
def objectProtoKeys : List String :=
  ["constructor", "hasOwnProperty", "isPrototypeOf", "propertyIsEnumerable",
   "toLocaleString", "toString", "valueOf", "__defineGetter__",
   "__defineSetter__", "__lookupGetter__", "__lookupSetter__", "__proto__"]

/-- Result of the JavaScript property read `current.children[segment]`:
an own entry (a trie node), a truthy non-node value inherited from
`Object.prototype`, or `undefined`. -/
inductive ChildRead where
  | node (t : TrieNode)
  | inherited
  | absent

/-- Faithful model of `current.children[segment]`: own properties first,
then the `Object.prototype` fallthrough. (A router whose patterns contain
a `__proto__` segment additionally reassigns the children object's
prototype at construction time; no claim input does, and such routers are
outside this model.) -/
def jsChildRead (children : List (Seg × TrieNode)) (s : String) : ChildRead :=
  match lookupChild children (.lit s) with
  | some t => .node t
  | none => if s ∈ objectProtoKeys then .inherited else .absent

/-- Faithful model of the segment walk of `Router.match`. When the literal
child read finds a truthy inherited value, `if (child)` descends into a
non-node: if a further segment follows, the next iteration evaluates
`current.children[segment]` with `current.children` equal to `undefined`
and throws a TypeError (the error carries that segment); if the walk ends
there, `current.match` is `undefined` and the result is `null`. -/
def jsWalkTrie (node : TrieNode) :
    List String → Except RouteError (Option (TrieNode × Option String))
  | [] => .ok (some (node, none))
  | seg :: rest =>
    match jsChildRead node.children seg with
    | .node child => jsWalkTrie child rest
    | .inherited =>
      match rest with
      | [] => .ok none
      | next :: _ => .error (.typeError next)
    | .absent =>
      match lookupChild node.children .param with
      | some child => jsWalkTrie child rest
      | none =>
        if node.matchesSubPaths then
          .ok (some (node, some (String.intercalate "/" (seg :: rest))))
        else .ok none

/-- Faithful model of `Router.match`, including the prototype-chain reads
that `matchPath` abstracts away. -/
def jsMatchPath (trie : TrieNode) (path : String) :
    Except RouteError (Option RouteMatch) :=
  let segments := jsSplit path '/'
  match jsWalkTrie trie segments with
  | .error e => .error e
  | .ok none => .ok none
  | .ok (some (node, subPath)) =>
    match node.matchData with
    | none => .ok none
    | some m =>
      .ok (some ⟨m.route,
        m.params.map (fun p => (p.1, segments.getD p.2 "")) ++ subPathEntry subPath⟩)

/-- Faithful model of the segment loop of the `Route` constructor,
including the two `Object.prototype` interactions of the `params` object:

* `params.hasOwnProperty(param)` — once an own `hasOwnProperty` entry
  exists (created by registering a param named `hasOwnProperty`, whose
  numeric value shadows the inherited method), the call itself throws a
  TypeError;
* `params[param] = i` — assigning the key `__proto__` invokes the
  inherited accessor and is a silent no-op, so no own property is created
  and later duplicate checks cannot see the name.

All other keys shadow data properties normally. The segment list is
built exactly as in `parseSegments`. -/
def jsParseSegments (pat : String) :
    Nat → List String → List Seg → List (String × Nat) →
    Except RouteError (List Seg × List (String × Nat))
  | _, [], segs, ps => .ok (segs, ps)
  | i, s :: rest, segs, ps =>
    if s = "*" then .error (.misplacedWildcard pat)
    else if strStartsWith s ":" then
      let name := strDrop s 1
      if ps.any (fun p => p.1 = "hasOwnProperty") then .error (.typeError "hasOwnProperty")
      else if ps.any (fun p => p.1 = name) then .error (.duplicateParamName pat name)
      else
        jsParseSegments pat (i + 1) rest (segs ++ [.lit name])
          (if name = "__proto__" then ps else ps ++ [(name, i)])
    else jsParseSegments pat (i + 1) rest (segs ++ [.lit s]) ps

/-- Faithful model of the `Route` constructor (see `jsParseSegments`). -/
def jsParseRoute (pat : String) : Except RouteError Route :=
  if strStartsWith pat "/" || strEndsWith pat "/" || hasDoubleSlash pat then
    .error (.invalidSlashes pat)
  else
    let patternSegments := jsSplit pat '/'
    let popped := patternSegments.getLast? = some "*"
    let segs := if popped then patternSegments.dropLast else patternSegments
    do
      let (segments, ps) ← jsParseSegments pat 0 segs [] []
      pure ⟨pat, segments, ps, popped⟩

/-- Faithful model of the `Router` constructor. The trie builder performs
no object reads, only distinct-key writes into fresh node objects, so
`constructTrie` is exact for construction success and failure. -/
def jsConstructRouter (patterns : List String) : Except RouteError TrieNode := do
  let routes ← mapME jsParseRoute patterns
  constructTrie routes

/-- Construct a router and match one path, under the faithful model. -/
def jsRouterMatch (patterns : List String) (path : String) :
    Except RouteError (Option RouteMatch) := do
  let t ← jsConstructRouter patterns
  jsMatchPath t path

/-- Modelled from the spec: the glossary defines specificity as the
ordering "between two same-length routes where literal segments outrank
parameter segments at the first differing position"; accordingly two
patterns are equally specific — duplicates — when their split segment
lists have the same length and, at every position, either both are
`:`-params or both are the same literal. -/
def equallySpecific (p1 p2 : String) : Bool :=
  let s1 := jsSplit p1 '/'
  let s2 := jsSplit p2 '/'
  s1.length == s2.length &&
    (s1.zip s2).all (fun q =>
      (strStartsWith q.1 ":" && strStartsWith q.2 ":") ||
      (!strStartsWith q.1 ":" && !strStartsWith q.2 ":" && q.1 == q.2))

/-! ### Helper lemmas: mapME -/

theorem mapME_cons_ok {f : α → Except RouteError β} {a : α} {as : List α} {ys : List β}
    (h : mapME f (a :: as) = .ok ys) :
    ∃ y zs, f a = .ok y ∧ mapME f as = .ok zs ∧ ys = y :: zs := by
  simp only [mapME, bind, Except.bind] at h
  cases hfa : f a with
  | error e => rw [hfa] at h; exact absurd h (by simp)
  | ok y =>
    rw [hfa] at h
    cases hms : mapME f as with
    | error e => rw [hms] at h; exact absurd h (by simp)
    | ok zs =>
      rw [hms] at h
      simp only [pure, Except.pure, Except.ok.injEq] at h
      exact ⟨y, zs, rfl, rfl, h.symm⟩

theorem mapME_ok_mem {f : α → Except RouteError β} {l : List α} {ys : List β}
    (h : mapME f l = .ok ys) : ∀ x ∈ l, ∃ y, f x = .ok y := by
  induction l generalizing ys with
  | nil => intro x hx; cases hx
  | cons a as ih =>
    intro x hx
    obtain ⟨y, zs, hfa, hms, rfl⟩ := mapME_cons_ok h
    rcases List.mem_cons.mp hx with rfl | hx'
    · exact ⟨y, hfa⟩
    · exact ih hms x hx'

theorem mapME_error_mem {f : α → Except RouteError β} {l : List α} {e : RouteError}
    (h : mapME f l = .error e) : ∃ x ∈ l, f x = .error e := by
  induction l with
  | nil => exact absurd h (by simp [mapME])
  | cons a as ih =>
    simp only [mapME, bind, Except.bind] at h
    cases hfa : f a with
    | error e' =>
      rw [hfa] at h
      have h2 : (Except.error e' : Except RouteError (List β)) = .error e := h
      exact ⟨a, List.mem_cons_self a as, Except.error.inj h2 ▸ hfa⟩
    | ok y =>
      rw [hfa] at h
      cases hms : mapME f as with
      | error e' =>
        rw [hms] at h
        have h2 : (Except.error e' : Except RouteError (List β)) = .error e := h
        obtain ⟨x, hx, hfx⟩ := ih (hms.trans h2)
        exact ⟨x, List.mem_cons_of_mem a hx, hfx⟩
      | ok zs => rw [hms] at h; exact absurd h (by simp [pure, Except.pure])

theorem mapME_ok_all {f : α → Except RouteError β} {l : List α} {ys : List β}
    (h : mapME f l = .ok ys) :
    (∀ x ∈ l, (f x).isOk = true) ∧ ys = l.filterMap (fun x => (f x).toOption) := by
  induction l generalizing ys with
  | nil =>
    simp only [mapME, Except.ok.injEq] at h
    subst h
    constructor
    · intro x hx; cases hx
    · simp
  | cons a as ih =>
    obtain ⟨y, zs, hfa, hms, rfl⟩ := mapME_cons_ok h
    obtain ⟨hall, hz⟩ := ih hms
    constructor
    · intro x hx
      rcases List.mem_cons.mp hx with rfl | hx'
      · rw [hfa]; rfl
      · exact hall x hx'
    · simp only [List.filterMap_cons, hfa, Except.toOption, hz]

theorem mapME_ok_of_all {f : α → Except RouteError β} {l : List α}
    (h : ∀ x ∈ l, (f x).isOk = true) :
    mapME f l = .ok (l.filterMap (fun x => (f x).toOption)) := by
  induction l with
  | nil => simp [mapME]
  | cons a as ih =>
    have ha := h a (List.mem_cons_self a as)
    cases hfa : f a with
    | error e => rw [hfa] at ha; simp [Except.isOk, Except.toBool] at ha
    | ok y =>
      have has := ih (fun x hx => h x (List.mem_cons_of_mem a hx))
      simp only [mapME, bind, Except.bind, hfa, has, pure, Except.pure,
        List.filterMap_cons, Except.toOption]

/-! ### Helper lemmas: the resolver on param-free routes -/

theorem compareSegs_none_of_paramFree {bs rs : List Seg}
    (hb : Seg.param ∉ bs) (hr : Seg.param ∉ rs) : compareSegs bs rs = none := by
  induction bs generalizing rs with
  | nil => rfl
  | cons b bs ih =>
    have hbb : ¬(b = Seg.param) := fun h => hb (h ▸ List.mem_cons_self b bs)
    have hb' : Seg.param ∉ bs := fun h => hb (List.mem_cons_of_mem b h)
    cases rs with
    | nil =>
      simp only [compareSegs, if_neg hbb]
      exact ih hb' (by simp)
    | cons r rs' =>
      have hrr : ¬(r = Seg.param) := fun h => hr (h ▸ List.mem_cons_self r rs')
      have hr' : Seg.param ∉ rs' := fun h => hr (List.mem_cons_of_mem r h)
      simp only [compareSegs]
      rw [if_neg (by tauto), if_neg (by tauto)]
      exact ih hb' hr'

theorem fhprGo_cons_error {best r : Route} {rest : List Route}
    (hb : Seg.param ∉ best.segments) (hr : Seg.param ∉ r.segments) :
    fhprGo best (r :: rest) = .error (.duplicateRoute best.pattern r.pattern) := by
  simp only [fhprGo, compareSegs_none_of_paramFree hb hr]

theorem fhpr_nil : findHighestPriorityRoute [] = .ok none := rfl

theorem fhpr_single (r : Route) : findHighestPriorityRoute [r] = .ok (some r) := rfl

/-- On param-free route lists the resolver hits the duplicate error as
soon as it has two routes to compare. -/
theorem fhpr_paramFree_two {r1 r2 : Route} (rest : List Route)
    (h1 : Seg.param ∉ r1.segments) (h2 : Seg.param ∉ r2.segments) :
    findHighestPriorityRoute (r1 :: r2 :: rest) =
      .error (.duplicateRoute r1.pattern r2.pattern) := by
  simp only [findHighestPriorityRoute, fhprGo_cons_error h1 h2, Except.map]

/-! ### Helper lemmas: parsing produces param-free routes -/

theorem parseSegments_ok_paramFree {pat : String} {i : Nat} {ss : List String}
    {segs : List Seg} {ps : List (String × Nat)} {out : List Seg × List (String × Nat)}
    (h : parseSegments pat i ss segs ps = .ok out) (hsegs : Seg.param ∉ segs) :
    Seg.param ∉ out.1 := by
  induction ss generalizing i segs ps with
  | nil =>
    simp only [parseSegments, Except.ok.injEq] at h
    subst h
    exact hsegs
  | cons s rest ih =>
    simp only [parseSegments] at h
    split at h
    · exact absurd h (by simp)
    · split at h
      · split at h
        · exact absurd h (by simp)
        · exact ih h (by simp [hsegs, List.mem_append])
      · exact ih h (by simp [hsegs, List.mem_append])

theorem parseRoute_ok_paramFree {pat : String} {r : Route}
    (h : parseRoute pat = .ok r) : Seg.param ∉ r.segments := by
  unfold parseRoute at h
  split at h
  · exact absurd h (by simp)
  · simp only [bind, Except.bind] at h
    generalize hps : parseSegments pat 0 _ [] [] = res at h
    cases res with
    | error e => exact absurd h (by simp)
    | ok out =>
      simp only [pure, Except.pure, Except.ok.injEq] at h
      have := parseSegments_ok_paramFree hps (by simp)
      rw [h.symm]
      exact this

theorem parsed_routes_paramFree {patterns : List String} {routes : List Route}
    (h : mapME parseRoute patterns = .ok routes) :
    ∀ r ∈ routes, Seg.param ∉ r.segments := by
  intro r hr
  obtain ⟨hall, rfl⟩ := mapME_ok_all h
  obtain ⟨pat, hpat, hok⟩ := List.mem_filterMap.mp hr
  cases hp : parseRoute pat with
  | error e => rw [hp] at hok; simp [Except.toOption] at hok
  | ok r' =>
    rw [hp] at hok
    simp only [Except.toOption, Option.some.injEq] at hok
    exact hok ▸ parseRoute_ok_paramFree hp

theorem jsParseSegments_ok_paramFree {pat : String} {i : Nat} {ss : List String}
    {segs : List Seg} {ps : List (String × Nat)} {out : List Seg × List (String × Nat)}
    (h : jsParseSegments pat i ss segs ps = .ok out) (hsegs : Seg.param ∉ segs) :
    Seg.param ∉ out.1 := by
  induction ss generalizing i segs ps with
  | nil =>
    simp only [jsParseSegments, Except.ok.injEq] at h
    subst h
    exact hsegs
  | cons s rest ih =>
    simp only [jsParseSegments] at h
    split at h
    · exact absurd h (by simp)
    · split at h
      · split at h
        · exact absurd h (by simp)
        · split at h
          · exact absurd h (by simp)
          · exact ih h (by simp [hsegs, List.mem_append])
      · exact ih h (by simp [hsegs, List.mem_append])

theorem jsParseRoute_ok_paramFree {pat : String} {r : Route}
    (h : jsParseRoute pat = .ok r) : Seg.param ∉ r.segments := by
  unfold jsParseRoute at h
  split at h
  · exact absurd h (by simp)
  · simp only [bind, Except.bind] at h
    generalize hps : jsParseSegments pat 0 _ [] [] = res at h
    cases res with
    | error e => exact absurd h (by simp)
    | ok out =>
      simp only [pure, Except.pure, Except.ok.injEq] at h
      have := jsParseSegments_ok_paramFree hps (by simp)
      rw [h.symm]
      exact this

theorem jsParsed_routes_paramFree {patterns : List String} {routes : List Route}
    (h : mapME jsParseRoute patterns = .ok routes) :
    ∀ r ∈ routes, Seg.param ∉ r.segments := by
  intro r hr
  obtain ⟨hall, rfl⟩ := mapME_ok_all h
  obtain ⟨pat, hpat, hok⟩ := List.mem_filterMap.mp hr
  cases hp : jsParseRoute pat with
  | error e => rw [hp] at hok; simp [Except.toOption] at hok
  | ok r' =>
    rw [hp] at hok
    simp only [Except.toOption, Option.some.injEq] at hok
    exact hok ▸ jsParseRoute_ok_paramFree hp

/-! ### Helper lemmas: the work set at a node -/

theorem mem_nextSegmentsGo {i : Nat} {seg : Seg} :
    ∀ (rs : List Route) (acc : List Seg),
      seg ∈ nextSegmentsGo i rs acc ↔
      seg ∈ acc ∨ ∃ r ∈ rs, isExactAt i r = false ∧ r.segments.get? i = some seg := by
  intro rs
  induction rs with
  | nil => intro acc; simp [nextSegmentsGo]
  | cons r rest ih =>
    intro acc
    simp only [nextSegmentsGo]
    rw [ih]
    by_cases hex : isExactAt i r
    · simp only [if_pos hex]
      constructor
      · rintro (h | ⟨r', hr', hex', hget⟩)
        · exact Or.inl h
        · exact Or.inr ⟨r', List.mem_cons_of_mem r hr', hex', hget⟩
      · rintro (h | ⟨r', hr', hex', hget⟩)
        · exact Or.inl h
        · rcases List.mem_cons.mp hr' with rfl | hr''
          · rw [hex] at hex'; cases hex'
          · exact Or.inr ⟨r', hr'', hex', hget⟩
    · simp only [if_neg hex]
      have hexf : isExactAt i r = false := by
        cases hx : isExactAt i r
        · rfl
        · exact absurd hx hex
      cases hget : r.segments.get? i with
      | none =>
        constructor
        · rintro (h | ⟨r', hr', hex', hget'⟩)
          · exact Or.inl h
          · exact Or.inr ⟨r', List.mem_cons_of_mem r hr', hex', hget'⟩
        · rintro (h | ⟨r', hr', hex', hget'⟩)
          · exact Or.inl h
          · rcases List.mem_cons.mp hr' with rfl | hr''
            · rw [hget] at hget'; cases hget'
            · exact Or.inr ⟨r', hr'', hex', hget'⟩
      | some s =>
        have hmem : seg ∈ (if s ∈ acc then acc else acc ++ [s]) ↔ seg ∈ acc ∨ seg = s := by
          by_cases hs : s ∈ acc
          · simp only [if_pos hs]
            constructor
            · exact Or.inl
            · rintro (h | rfl)
              · exact h
              · exact hs
          · simp [if_neg hs, List.mem_append]
        rw [hmem]
        constructor
        · rintro ((h | rfl) | ⟨r', hr', hex', hget'⟩)
          · exact Or.inl h
          · exact Or.inr ⟨r, List.mem_cons_self r rest, hexf, hget⟩
          · exact Or.inr ⟨r', List.mem_cons_of_mem r hr', hex', hget'⟩
        · rintro (h | ⟨r', hr', hex', hget'⟩)
          · exact Or.inl (Or.inl h)
          · rcases List.mem_cons.mp hr' with rfl | hr''
            · rw [hget] at hget'
              exact Or.inl (Or.inr (Option.some.inj hget').symm)
            · exact Or.inr ⟨r', hr'', hex', hget'⟩

theorem mem_nextSegmentsAt {i : Nat} {routes : List Route} {seg : Seg} :
    seg ∈ nextSegmentsAt i routes ↔
    ∃ r ∈ routes, isExactAt i r = false ∧ r.segments.get? i = some seg := by
  rw [nextSegmentsAt, mem_nextSegmentsGo]
  simp

theorem mem_childRoutesAt {i : Nat} {seg : Seg} {routes : List Route} {r : Route} :
    r ∈ childRoutesAt i seg routes ↔
    r ∈ routes ∧ (r.segments.get? i = some seg ∨ r.segments.get? i = some .param) := by
  simp [childRoutesAt, List.mem_filter]

theorem length_lt_of_get?_some {l : List Seg} {i : Nat} {s : Seg}
    (h : l.get? i = some s) : i < l.length :=
  List.get?_eq_some.mp h |>.1 |> fun h' => h'

theorem mem_le_maxSegmentsLength {routes : List Route} {r : Route} (h : r ∈ routes) :
    r.segments.length ≤ maxSegmentsLength routes := by
  induction routes with
  | nil => cases h
  | cons a as ih =>
    rcases List.mem_cons.mp h with rfl | h'
    · simp [maxSegmentsLength, List.foldr]
    · simp only [maxSegmentsLength, List.foldr]
      exact le_trans (ih h') (le_max_right _ _)

/-! ### Helper lemmas: the builder's fuel is sufficient (claim C9) -/

theorem fhprGo_error_shape {best : Route} {l : List Route} {e : RouteError}
    (h : fhprGo best l = .error e) : ∃ p q, e = .duplicateRoute p q := by
  induction l generalizing best with
  | nil => exact absurd h (by simp [fhprGo])
  | cons r rest ih =>
    simp only [fhprGo] at h
    split at h
    · exact ih h
    · exact ih h
    · exact ⟨_, _, (Except.error.inj h).symm⟩

theorem fhpr_error_shape {l : List Route} {e : RouteError}
    (h : findHighestPriorityRoute l = .error e) : ∃ p q, e = .duplicateRoute p q := by
  cases l with
  | nil => exact absurd h (by simp [findHighestPriorityRoute])
  | cons r rest =>
    simp only [findHighestPriorityRoute] at h
    cases hg : fhprGo r rest with
    | error e' =>
      rw [hg] at h
      simp only [Except.map] at h
      exact Except.error.inj h ▸ fhprGo_error_shape hg
    | ok b => rw [hg] at h; exact absurd h (by simp [Except.map])

theorem exceptBind_error {x : Except RouteError α} {f : α → Except RouteError γ}
    {e : RouteError} (h : x >>= f = .error e) :
    x = .error e ∨ ∃ y, x = .ok y ∧ f y = .error e := by
  cases x with
  | error e' =>
    have h2 : (Except.error e' : Except RouteError γ) = .error e := h
    exact Or.inl (by rw [Except.error.inj h2])
  | ok y => exact Or.inr ⟨y, rfl, h⟩

theorem exceptMap_error {x : Except RouteError α} {g : α → γ} {e : RouteError}
    (h : x.map g = .error e) : x = .error e := by
  cases x with
  | error e' =>
    have h2 : (Except.error e' : Except RouteError γ) = .error e := h
    rw [Except.error.inj h2]
  | ok y => exact absurd h (by simp [Except.map])

/-- Unfolding equation for one builder step. -/
theorem buildNode_succ (f i : Nat) (routes : List Route) :
    buildNode (f + 1) i routes =
      match findHighestPriorityRoute (routes.filter (isExactAt i)) with
      | .error e => .error e
      | .ok best =>
        match mapME (fun seg => (buildNode f (i + 1) (childRoutesAt i seg routes)).map
            (fun child => (seg, child))) (nextSegmentsAt i routes) with
        | .error e => .error e
        | .ok children =>
          .ok (.mk (best.map (fun r => ⟨r.pattern, r.params⟩)) children false) := by
  rfl

theorem buildNode_ne_outOfFuel (fuel : Nat) :
    ∀ (i : Nat) (routes : List Route), 0 < fuel →
      (∀ r ∈ routes, r.segments.length < i + fuel) →
      buildNode fuel i routes ≠ .error .outOfFuel := by
  induction fuel with
  | zero => intro i routes h0 _ _; exact absurd h0 (by omega)
  | succ f ih =>
    intro i routes _ hbound hcontra
    rw [buildNode_succ] at hcontra
    cases hb : findHighestPriorityRoute (routes.filter (isExactAt i)) with
    | error e =>
      rw [hb] at hcontra
      obtain ⟨p, q, rfl⟩ := fhpr_error_shape hb
      have h2 : (Except.error (RouteError.duplicateRoute p q) : Except RouteError TrieNode)
          = .error .outOfFuel := hcontra
      simp at h2
    | ok best =>
      rw [hb] at hcontra
      cases hc : mapME (fun seg => (buildNode f (i + 1) (childRoutesAt i seg routes)).map
          (fun child => (seg, child))) (nextSegmentsAt i routes) with
      | ok children => rw [hc] at hcontra; exact absurd hcontra (by simp)
      | error e =>
        rw [hc] at hcontra
        have h2 : (Except.error e : Except RouteError TrieNode) = .error .outOfFuel := hcontra
        rw [Except.error.inj h2] at hc
        obtain ⟨seg, hseg, hfe⟩ := mapME_error_mem hc
        obtain ⟨r0, hr0, hex0, hget0⟩ := mem_nextSegmentsAt.mp hseg
        have hlen0 : i < r0.segments.length := length_lt_of_get?_some hget0
        have hflarge : 0 < f := by
          have := hbound r0 hr0
          omega
        refine ih (i + 1) (childRoutesAt i seg routes) hflarge ?_ (exceptMap_error hfe)
        intro r' hr'
        have := hbound r' (mem_childRoutesAt.mp hr').1
        omega

theorem buildNode_error_shape (fuel : Nat) :
    ∀ (i : Nat) (routes : List Route) (e : RouteError),
      buildNode fuel i routes = .error e →
      e = .outOfFuel ∨ ∃ p q, e = .duplicateRoute p q := by
  induction fuel with
  | zero =>
    intro i routes e h
    simp only [buildNode] at h
    exact Or.inl (Except.error.inj h).symm
  | succ f ih =>
    intro i routes e h
    rw [buildNode_succ] at h
    cases hb : findHighestPriorityRoute (routes.filter (isExactAt i)) with
    | error e' =>
      rw [hb] at h
      have h2 : (Except.error e' : Except RouteError TrieNode) = .error e := h
      obtain ⟨p, q, rfl⟩ := fhpr_error_shape hb
      exact Or.inr ⟨p, q, (Except.error.inj h2).symm⟩
    | ok best =>
      rw [hb] at h
      cases hc : mapME (fun seg => (buildNode f (i + 1) (childRoutesAt i seg routes)).map
          (fun child => (seg, child))) (nextSegmentsAt i routes) with
      | ok children => rw [hc] at h; exact absurd h (by simp)
      | error e' =>
        rw [hc] at h
        have h2 : (Except.error e' : Except RouteError TrieNode) = .error e := h
        rw [Except.error.inj h2] at hc
        obtain ⟨seg, hseg, hfe⟩ := mapME_error_mem hc
        exact ih (i + 1) (childRoutesAt i seg routes) e (exceptMap_error hfe)

/-! ### Claim C1: splat capture boundary cases -/

/-- Claim C1: the claim's first boundary case holds (`match("settings")`
matches `settings/*` with empty params), but the other two fail on the
code: `constructTrie` never sets `matchesSubPaths` on any trie node, so
the splat continuation branch of the matcher is unreachable and both
`match("settings/")` and `match("settings/account/privacy")` return
`null` instead of capturing the sub-path under `"*"`. -/
theorem splat_subpaths_never_captured :
    routerMatch ["settings/*"] "settings" = .ok (some ⟨"settings/*", []⟩) ∧
    routerMatch ["settings/*"] "settings/" = .ok none ∧
    routerMatch ["settings/*"] "settings/account/privacy" = .ok none :=
  ⟨rfl, rfl, rfl⟩

/-! ### Claim C2: match never fails -/

/-- Claim C2: the claim is false of the program. `current.children[segment]`
is a JavaScript property read that falls through to `Object.prototype`, so
a segment such as `constructor` finds the truthy inherited `Object`
constructor function, the walk descends into it, and with a further
segment the next iteration reads a property of `undefined` and throws a
TypeError. Paths avoiding such keys match without error, and an unmatched
path yields `null`. -/
theorem match_throws_on_prototype_key :
    (jsConstructRouter ["a"]).isOk = true ∧
    jsRouterMatch ["a"] "constructor/b" = .error (.typeError "b") ∧
    jsRouterMatch ["a"] "a" = .ok (some ⟨"a", []⟩) ∧
    jsRouterMatch ["a"] "b" = .ok none :=
  ⟨rfl, rfl, rfl, rfl⟩

/-! ### Claim C3: literal-over-param precedence example -/

/-- Claim C3: the documented precedence example fails on the code. Because
the `Route` constructor's local `const param` (the captured name string)
shadows the module-level `param` symbol, `segments.push(param)` stores the
name string as a literal segment; `:p1`/`:p2` therefore never match the
input segments `b`/`c` and the match returns `null` instead of
`{route: "a/b/:p2/d", params: {p2: "c"}}`. -/
theorem literal_param_precedence_example_fails :
    routerMatch ["a/:p1/c/d", "a/b/:p2/d"] "a/b/c/d" = .ok none ∧
    (constructRouter ["a/:p1/c/d", "a/b/:p2/d"]).isOk = true :=
  ⟨rfl, rfl⟩

/-! ### Claim C4: duplicate detection -/

/-- Claim C4: constructing from `["a/:x", "a/:y"]` does not fail on the
code. The shadowing bug stores `:x`/`:y` as the distinct literal segments
`x`/`y`, so the two routes end in different trie nodes, no equal-priority
comparison ever happens, and construction succeeds; matching then treats
the param names as literal path text. -/
theorem ambiguous_param_routes_accepted :
    (constructRouter ["a/:x", "a/:y"]).isOk = true ∧
    routerMatch ["a/:x", "a/:y"] "a/q" = .ok none ∧
    routerMatch ["a/:x", "a/:y"] "a/x" = .ok (some ⟨"a/:x", [("x", "x")]⟩) :=
  ⟨rfl, rfl, rfl⟩

/-! ### Claim C7: sanitizePath -/

/-- Claim C7: `sanitizePath` does strip leading and trailing slashes, but
it replaces every interior run of two or more slashes with the empty
string rather than a single separator, merging the adjacent segments:
`sanitizePath("/a//b/")` evaluates to `"ab"`, not `"a/b"`. -/
theorem sanitizePath_merges_segments_at_double_slash :
    sanitizePath "/a//b/" = "ab" ∧ sanitizePath "a/b" = "a/b" :=
  ⟨rfl, rfl⟩


/-! ### Claim C10: the empty pattern -/

/-- Claim C10: the empty pattern is accepted, produces a route with a
single empty-literal segment, and `match("")` returns `{route: "",
params: {}}`; but the universal conjunct is false of the program: a path
whose first segment is an `Object.prototype` member name, such as
`constructor/x`, makes `match` throw a TypeError through the
prototype-chain child lookup instead of returning `null`. Other
unregistered non-empty first segments do return `null`. -/
theorem empty_pattern_router_behavior :
    jsRouterMatch [""] "" = .ok (some ⟨"", []⟩) ∧
    jsRouterMatch [""] "q" = .ok none ∧
    jsRouterMatch [""] "q/r" = .ok none ∧
    jsRouterMatch [""] "constructor/x" = .error (.typeError "x") :=
  ⟨rfl, rfl, rfl, rfl⟩

/-! ### Claim C9: construction always terminates -/

/-- Claim C9: trie construction halts on every finite route list. The
builder's recursion depth is bounded because every work item created for a
child strictly increases the depth while route segment counts bound the
reachable depths, so the fuel `maxSegmentsLength routes + 1` is never
exhausted: construction returns the root node or raises a duplicate-route
validation error. -/
theorem constructTrie_terminates (routes : List Route) :
    (∃ t, constructTrie routes = .ok t) ∨
    ∃ p q, constructTrie routes = .error (.duplicateRoute p q) := by
  unfold constructTrie
  cases h : buildNode (maxSegmentsLength routes + 1) 0 routes with
  | ok t => exact Or.inl ⟨t, rfl⟩
  | error e =>
    rcases buildNode_error_shape _ 0 routes e h with rfl | ⟨p, q, rfl⟩
    · refine absurd h (buildNode_ne_outOfFuel _ 0 routes (by omega) ?_)
      intro r hr
      have := mem_le_maxSegmentsLength hr
      omega
    · exact Or.inr ⟨p, q, rfl⟩

/-! ### Claim C8: invalid pattern rejection -/

/-- Claim C8: the three concrete rejections hold and ordinary duplicate
names are rejected, but the duplicate-parameter clause is false of the
program: registering a param named `__proto__` performs
`params["__proto__"] = i`, which invokes the inherited accessor and
creates no own property, so `hasOwnProperty` never reports the duplicate
and `Construct([":__proto__/:__proto__"])` succeeds. A param named
`hasOwnProperty` shadows the inherited method with a number, so the next
duplicate check throws a TypeError rather than the InvalidPattern
error. -/
theorem duplicate_param_detection_evaded :
    jsConstructRouter ["/a"] = .error (.invalidSlashes "/a") ∧
    jsConstructRouter ["a//b"] = .error (.invalidSlashes "a//b") ∧
    jsConstructRouter ["a/*/b"] = .error (.misplacedWildcard "a/*/b") ∧
    jsParseRoute ":x/:x" = .error (.duplicateParamName ":x/:x" "x") ∧
    (jsConstructRouter [":__proto__/:__proto__"]).isOk = true ∧
    jsParseRoute ":hasOwnProperty/:hasOwnProperty" = .error (.typeError "hasOwnProperty") :=
  ⟨rfl, rfl, rfl, rfl, rfl, rfl⟩

/-! ### Helper lemmas: construction succeeds on distinct valid routes -/

theorem isExactAt_true_iff {i : Nat} {r : Route} :
    isExactAt i r = true ↔
    (r.segments.length = i ∨ (i > r.segments.length ∧ r.matchesSubPaths = true)) := by
  simp [isExactAt]

theorem isExactAt_of_le {i : Nat} {r : Route} (h : i ≤ r.segments.length) :
    isExactAt i r = true ↔ r.segments.length = i := by
  rw [isExactAt_true_iff]
  constructor
  · rintro (h1 | ⟨h1, _⟩)
    · exact h1
    · omega
  · exact Or.inl

theorem segments_eq_of_node_agree {r1 r2 : Route} {i : Nat}
    (h1 : r1.segments.length = i) (h2 : r2.segments.length = i)
    (hagree : ∀ j, j < i → r1.segments.get? j = r2.segments.get? j) :
    r1.segments = r2.segments := by
  apply List.ext
  intro n
  by_cases hn : n < i
  · exact hagree n hn
  · rw [List.get?_eq_none.mpr (by omega), List.get?_eq_none.mpr (by omega)]

theorem childRoutesAt_get {i : Nat} {seg : Seg} {routes : List Route} {r : Route}
    (hpf : ∀ r' ∈ routes, Seg.param ∉ r'.segments)
    (hr : r ∈ childRoutesAt i seg routes) :
    r ∈ routes ∧ r.segments.get? i = some seg := by
  obtain ⟨hmem, hor⟩ := mem_childRoutesAt.mp hr
  refine ⟨hmem, ?_⟩
  rcases hor with h | h
  · exact h
  · exact absurd (List.get?_mem h) (hpf r hmem)

theorem buildNode_ok_of_distinct (fuel : Nat) :
    ∀ (i : Nat) (routes : List Route), 0 < fuel →
      (∀ r ∈ routes, i ≤ r.segments.length ∧ r.segments.length < i + fuel) →
      (∀ r ∈ routes, Seg.param ∉ r.segments) →
      (∀ r1 ∈ routes, ∀ r2 ∈ routes, ∀ j, j < i →
        r1.segments.get? j = r2.segments.get? j) →
      routes.Pairwise (fun r1 r2 => r1.segments ≠ r2.segments) →
      ∃ t, buildNode fuel i routes = .ok t := by
  induction fuel with
  | zero => intro i routes h0 _ _ _ _; exact absurd h0 (by omega)
  | succ f ih =>
    intro i routes _ hbound hpf hagree hpw
    rw [buildNode_succ]
    have hsubmem : ∀ r ∈ routes.filter (isExactAt i), r ∈ routes := by
      intro r hr; exact (List.mem_filter.mp hr).1
    have hfb : ∃ b, findHighestPriorityRoute (routes.filter (isExactAt i)) = .ok b := by
      cases hexact : routes.filter (isExactAt i) with
      | nil => exact ⟨none, fhpr_nil⟩
      | cons r1 tail =>
        cases tail with
        | nil => exact ⟨some r1, fhpr_single r1⟩
        | cons r2 tail2 =>
          exfalso
          have hpw2 : (routes.filter (isExactAt i)).Pairwise
              (fun r1 r2 => r1.segments ≠ r2.segments) :=
            List.Pairwise.sublist (List.filter_sublist routes) hpw
          rw [hexact] at hpw2
          have hne := (List.pairwise_cons.mp hpw2).1 r2 (List.mem_cons_self r2 tail2)
          have hm1 : r1 ∈ routes.filter (isExactAt i) := by rw [hexact]; simp
          have hm2 : r2 ∈ routes.filter (isExactAt i) := by rw [hexact]; simp
          have hl1 : r1.segments.length = i := by
            have := (List.mem_filter.mp hm1).2
            exact (isExactAt_of_le (hbound r1 (hsubmem r1 hm1)).1).mp this
          have hl2 : r2.segments.length = i := by
            have := (List.mem_filter.mp hm2).2
            exact (isExactAt_of_le (hbound r2 (hsubmem r2 hm2)).1).mp this
          exact hne (segments_eq_of_node_agree hl1 hl2
            (fun j hj => hagree r1 (hsubmem r1 hm1) r2 (hsubmem r2 hm2) j hj))
    obtain ⟨b, hb⟩ := hfb
    rw [hb]
    have hchildren : ∀ seg ∈ nextSegmentsAt i routes,
        ((buildNode f (i + 1) (childRoutesAt i seg routes)).map
          (fun child => (seg, child))).isOk = true := by
      intro seg hseg
      obtain ⟨r0, hr0, hex0, hget0⟩ := mem_nextSegmentsAt.mp hseg
      have hlen0 : i < r0.segments.length := length_lt_of_get?_some hget0
      have hf0 : 0 < f := by
        have := (hbound r0 hr0).2
        omega
      obtain ⟨t, ht⟩ := ih (i + 1) (childRoutesAt i seg routes) hf0
        (fun r hr => by
          have hg := childRoutesAt_get hpf hr
          have h1 := length_lt_of_get?_some hg.2
          have h2 := (hbound r hg.1).2
          omega)
        (fun r hr => hpf r (childRoutesAt_get hpf hr).1)
        (fun r1 hr1 r2 hr2 j hj => by
          have hg1 := childRoutesAt_get hpf hr1
          have hg2 := childRoutesAt_get hpf hr2
          by_cases hji : j < i
          · exact hagree r1 hg1.1 r2 hg2.1 j hji
          · have hj' : j = i := by omega
            rw [hj', hg1.2, hg2.2])
        (List.Pairwise.sublist (List.filter_sublist routes) hpw)
      rw [ht]
      rfl
    obtain ⟨cs, hcs⟩ : ∃ cs, mapME (fun seg =>
        (buildNode f (i + 1) (childRoutesAt i seg routes)).map
          (fun child => (seg, child))) (nextSegmentsAt i routes) = .ok cs :=
      ⟨_, mapME_ok_of_all hchildren⟩
    rw [hcs]
    exact ⟨_, rfl⟩

/-! ### Claim C6: construction success and purity of match -/

/-- Claim C6 counterexamples. First, `["/a"]` contains no duplicates (it
is a single pattern), yet `Construct` fails with `InvalidPattern`:
validity is a missing hypothesis. Second, `"a/:x"` and `"a/x"` are valid
and not equally specific in the spec's sense (position 1 holds a Param in
one and a Literal in the other), yet both parse to the segment list
`["a", "x"]` — the shadowed-`param` slip stores the name string as a
literal — and `Construct` fails with `DuplicateRoute`. -/
theorem construct_fails_on_duplicate_free_set :
    (jsConstructRouter ["/a"]).isOk = false ∧
    jsConstructRouter ["/a"] = .error (.invalidSlashes "/a") ∧
    equallySpecific "a/:x" "a/x" = false ∧
    jsConstructRouter ["a/:x", "a/x"] = .error (.duplicateRoute "a/:x" "a/x") :=
  ⟨rfl, rfl, rfl, rfl⟩

/-- Claim C6, amended: for every pattern list whose patterns all pass the
constructor's validation (modelled faithfully, including the silent
`__proto__` assignment and the `hasOwnProperty` shadowing) and whose
parsed routes have pairwise-distinct segment lists — the duplicate
condition the code actually enforces — construction succeeds. The
original claim's determinism and no-mutation clauses hold by construction
in the pure functional embedding and carry no separate content. -/
theorem construct_succeeds_of_valid_distinct :
    ∀ (patterns : List String) (routes : List Route),
      mapME jsParseRoute patterns = .ok routes →
      routes.Pairwise (fun r1 r2 => r1.segments ≠ r2.segments) →
      ∃ t, jsConstructRouter patterns = .ok t := by
  intro patterns routes hmap hpw
  have hpf := jsParsed_routes_paramFree hmap
  obtain ⟨t, ht⟩ := buildNode_ok_of_distinct (maxSegmentsLength routes + 1) 0 routes
    (by omega)
    (fun r hr => ⟨Nat.zero_le _, by have := mem_le_maxSegmentsLength hr; omega⟩)
    hpf
    (fun r1 _ r2 _ j hj => absurd hj (by omega))
    hpw
  refine ⟨t, ?_⟩
  simp only [jsConstructRouter, bind, Except.bind, hmap]
  exact ht

theorem construct_succeeds_of_valid_distinct_witness :
    ∃ t, jsConstructRouter ["a", "b/c"] = .ok t :=
  construct_succeeds_of_valid_distinct ["a", "b/c"]
    [⟨"a", [.lit "a"], [], false⟩, ⟨"b/c", [.lit "b", .lit "c"], [], false⟩]
    rfl
    (by
      refine List.Pairwise.cons ?_ (List.pairwise_singleton _ _)
      intro b hb
      rw [List.mem_singleton.mp hb]
      decide)

/-! ### Helper lemmas: permutation invariance (claim C5) -/

theorem exceptMap_ok {x : Except RouteError α} {g : α → γ} {y : γ}
    (h : x.map g = .ok y) : ∃ c, x = .ok c ∧ g c = y := by
  cases x with
  | error e => exact absurd h (by simp [Except.map])
  | ok c =>
    have h2 : (Except.ok (g c) : Except RouteError γ) = .ok y := h
    exact ⟨c, rfl, Except.ok.inj h2⟩

theorem sublist_filter_of_all {l1 l2 : List α} {p : α → Bool}
    (hsub : List.Sublist l1 l2) (h : ∀ x ∈ l1, p x = true) :
    List.Sublist l1 (l2.filter p) := by
  have := hsub.filter p
  rwa [List.filter_eq_self.mpr h] at this

theorem maxSegmentsLength_perm {l1 l2 : List Route} (h : l1.Perm l2) :
    maxSegmentsLength l1 = maxSegmentsLength l2 := by
  induction h with
  | nil => rfl
  | cons x _ ih =>
    simp only [maxSegmentsLength, List.foldr] at *
    rw [ih]
  | swap x y l =>
    simp only [maxSegmentsLength, List.foldr]
    rw [max_left_comm]
  | trans _ _ ih1 ih2 => exact ih1.trans ih2

/-- If the route list contains two routes with identical segment lists,
the builder cannot succeed: the two routes travel together into the same
nodes, terminate at the same depth, and the resolver faults on them. -/
theorem buildNode_error_of_dup (fuel : Nat) :
    ∀ (i : Nat) (routes : List Route) (r1 r2 : Route),
      List.Sublist [r1, r2] routes → r1.segments = r2.segments →
      (∀ r ∈ routes, i ≤ r.segments.length) →
      (∀ r ∈ routes, Seg.param ∉ r.segments) →
      ∀ t, buildNode fuel i routes ≠ .ok t := by
  induction fuel with
  | zero => intro i routes r1 r2 _ _ _ _ t h; exact absurd h (by simp [buildNode])
  | succ f ih =>
    intro i routes r1 r2 hsub hseg hbound hpf t hok
    rw [buildNode_succ] at hok
    have hr1 : r1 ∈ routes := hsub.subset (by simp)
    have hr2 : r2 ∈ routes := hsub.subset (by simp)
    have hlen2 : r2.segments.length = r1.segments.length := by rw [hseg]
    by_cases hlen : r1.segments.length = i
    · have hex1 : isExactAt i r1 = true := (isExactAt_of_le (hbound r1 hr1)).mpr hlen
      have hex2 : isExactAt i r2 = true :=
        (isExactAt_of_le (hbound r2 hr2)).mpr (hlen2.trans hlen)
      have hsubf : List.Sublist [r1, r2] (routes.filter (isExactAt i)) :=
        sublist_filter_of_all hsub (by
          intro x hx
          rcases List.mem_cons.mp hx with rfl | hx'
          · exact hex1
          · rw [List.mem_singleton.mp hx']; exact hex2)
      cases hexact : routes.filter (isExactAt i) with
      | nil => rw [hexact] at hsubf; have := hsubf.length_le; simp at this
      | cons x tail =>
        cases tail with
        | nil => rw [hexact] at hsubf; have := hsubf.length_le; simp at this
        | cons y tail2 =>
          have hx : x ∈ routes.filter (isExactAt i) := by rw [hexact]; simp
          have hy : y ∈ routes.filter (isExactAt i) := by rw [hexact]; simp
          rw [hexact, fhpr_paramFree_two tail2
            (hpf x (List.mem_filter.mp hx).1) (hpf y (List.mem_filter.mp hy).1)] at hok
          simp at hok
    · have hlt : i < r1.segments.length :=
        lt_of_le_of_ne (hbound r1 hr1) (Ne.symm hlen)
      obtain ⟨s, hget⟩ : ∃ s, r1.segments.get? i = some s := by
        cases hg : r1.segments.get? i with
        | none =>
          have := List.get?_eq_none.mp hg
          omega
        | some s => exact ⟨s, rfl⟩
      have hex1 : isExactAt i r1 = false := by
        cases hx : isExactAt i r1
        · rfl
        · exact absurd ((isExactAt_of_le (hbound r1 hr1)).mp hx) hlen
      have hmem_s : s ∈ nextSegmentsAt i routes :=
        mem_nextSegmentsAt.mpr ⟨r1, hr1, hex1, hget⟩
      have hsubc : List.Sublist [r1, r2] (childRoutesAt i s routes) := by
        unfold childRoutesAt
        refine sublist_filter_of_all hsub ?_
        intro x hx
        rcases List.mem_cons.mp hx with rfl | hx'
        · exact decide_eq_true (Or.inl hget)
        · rw [List.mem_singleton.mp hx']
          exact decide_eq_true (Or.inl (hseg ▸ hget))
      cases hb : findHighestPriorityRoute (routes.filter (isExactAt i)) with
      | error e => rw [hb] at hok; simp at hok
      | ok best =>
        rw [hb] at hok
        cases hc : mapME (fun seg =>
            (buildNode f (i + 1) (childRoutesAt i seg routes)).map
              (fun child => (seg, child))) (nextSegmentsAt i routes) with
        | error e => rw [hc] at hok; simp at hok
        | ok children =>
          obtain ⟨y, hy⟩ := mapME_ok_mem hc s hmem_s
          obtain ⟨c, hcok, _⟩ := exceptMap_ok hy
          refine ih (i + 1) (childRoutesAt i s routes) r1 r2 hsubc hseg ?_ ?_ c hcok
          · intro r hr
            exact length_lt_of_get?_some (childRoutesAt_get hpf hr).2
          · intro r hr
            exact hpf r (childRoutesAt_get hpf hr).1

theorem lookupChild_cons {s : Seg} {c : TrieNode} {tail : List (Seg × TrieNode)}
    {k : Seg} :
    lookupChild ((s, c) :: tail) k = if s = k then some c else lookupChild tail k := by
  by_cases h : s = k
  · simp [lookupChild, List.find?, h]
  · simp [lookupChild, List.find?, h]

theorem children_lookup_isSome (g : Seg → Except RouteError TrieNode) :
    ∀ (nsegs : List Seg), (∀ seg ∈ nsegs, (g seg).isOk = true) → ∀ (k : Seg),
      (lookupChild (nsegs.filterMap (fun seg => ((g seg).map
        (fun child => (seg, child))).toOption)) k).isSome = decide (k ∈ nsegs) := by
  intro nsegs
  induction nsegs with
  | nil => intro _ k; simp [lookupChild, List.find?]
  | cons s rest ih =>
    intro hok k
    have hs := hok s (List.mem_cons_self s rest)
    cases hg : g s with
    | error e => rw [hg] at hs; exact absurd hs (by simp [Except.isOk, Except.toBool])
    | ok c =>
      have hentry : ((g s).map (fun child => (s, child))).toOption = some (s, c) := by
        rw [hg]; rfl
      rw [List.filterMap_cons, hentry, lookupChild_cons]
      by_cases hk : s = k
      · subst hk
        simp [List.mem_cons]
      · rw [if_neg hk, ih (fun seg hseg => hok seg (List.mem_cons_of_mem s hseg)) k,
          decide_eq_decide]
        constructor
        · exact List.mem_cons_of_mem s
        · intro hm
          rcases List.mem_cons.mp hm with rfl | hm'
          · exact absurd rfl hk
          · exact hm'

theorem children_lookup_some (g : Seg → Except RouteError TrieNode) :
    ∀ (nsegs : List Seg) (k : Seg) (t : TrieNode),
      lookupChild (nsegs.filterMap (fun seg => ((g seg).map
        (fun child => (seg, child))).toOption)) k = some t → g k = .ok t := by
  intro nsegs
  induction nsegs with
  | nil => intro k t h; simp [lookupChild, List.find?] at h
  | cons s rest ih =>
    intro k t h
    rw [List.filterMap_cons] at h
    cases hg : g s with
    | error e =>
      rw [show ((g s).map (fun child => (s, child))).toOption = none by rw [hg]; rfl] at h
      exact ih k t h
    | ok c =>
      rw [show ((g s).map (fun child => (s, child))).toOption = some (s, c) by
        rw [hg]; rfl] at h
      rw [lookupChild_cons] at h
      by_cases hk : s = k
      · rw [if_pos hk] at h
        rw [← hk, hg, Option.some.inj h]
      · rw [if_neg hk] at h
        exact ih k t h

theorem walkTrie_equiv :
    ∀ (segs : List String) (t1 t2 : TrieNode), TrieEquiv t1 t2 →
      (walkTrie t1 segs).map (fun p => (p.1.matchData, p.2)) =
      (walkTrie t2 segs).map (fun p => (p.1.matchData, p.2)) := by
  intro segs
  induction segs with
  | nil =>
    intro t1 t2 h
    cases h with
    | mk m1 m2 c1 c2 b1 b2 hm hb hsome hrec =>
      simp [walkTrie, TrieNode.matchData, hm]
  | cons seg rest ih =>
    intro t1 t2 h
    cases h with
    | mk m1 m2 c1 c2 b1 b2 hm hb hsome hrec =>
      simp only [walkTrie, TrieNode.children, TrieNode.matchesSubPaths]
      cases h1 : lookupChild c1 (.lit seg) with
      | some child1 =>
        have h2s : (lookupChild c2 (.lit seg)).isSome = true := by
          rw [← hsome, h1]; rfl
        obtain ⟨child2, h2⟩ := Option.isSome_iff_exists.mp h2s
        rw [h2]
        exact ih child1 child2 (hrec _ _ _ h1 h2)
      | none =>
        have h2 : lookupChild c2 (.lit seg) = none := by
          have hs := hsome (Seg.lit seg)
          rw [h1] at hs
          cases hx : lookupChild c2 (.lit seg)
          · rfl
          · rw [hx] at hs; exact absurd hs.symm (by simp)
        rw [h2]
        cases hp1 : lookupChild c1 .param with
        | some child1 =>
          have hp2s : (lookupChild c2 .param).isSome = true := by
            rw [← hsome, hp1]; rfl
          obtain ⟨child2, hp2⟩ := Option.isSome_iff_exists.mp hp2s
          rw [hp2]
          exact ih child1 child2 (hrec _ _ _ hp1 hp2)
        | none =>
          have hp2 : lookupChild c2 .param = none := by
            have hs := hsome Seg.param
            rw [hp1] at hs
            cases hx : lookupChild c2 .param
            · rfl
            · rw [hx] at hs; exact absurd hs.symm (by simp)
          rw [hp2, ← hb]
          cases b1
          · simp
          · simp [TrieNode.matchData, hm]

theorem matchPath_equiv {t1 t2 : TrieNode} (h : TrieEquiv t1 t2) (path : String) :
    matchPath t1 path = matchPath t2 path := by
  have hw := walkTrie_equiv (jsSplit path '/') t1 t2 h
  simp only [matchPath]
  cases h1 : walkTrie t1 (jsSplit path '/') with
  | none =>
    rw [h1] at hw
    cases h2 : walkTrie t2 (jsSplit path '/') with
    | none => rfl
    | some p => rw [h2] at hw; simp at hw
  | some p1 =>
    obtain ⟨n1, sp1⟩ := p1
    rw [h1] at hw
    cases h2 : walkTrie t2 (jsSplit path '/') with
    | none => rw [h2] at hw; simp at hw
    | some p2 =>
      obtain ⟨n2, sp2⟩ := p2
      rw [h2] at hw
      simp only [Option.map_some'] at hw
      obtain ⟨hmd, hsp⟩ := Prod.mk.injEq _ _ _ _ ▸ Option.some.inj hw
      simp [hmd, hsp]

theorem exceptMap_isOk {x : Except RouteError α} {g : α → γ} :
    (x.map g).isOk = x.isOk := by
  cases x <;> rfl

/-- Tries built from permuted route lists (when both constructions
succeed) are equivalent: the resolver picks the same match record at
every node and the child key sets coincide. -/
theorem buildNode_perm_equiv (fuel : Nat) :
    ∀ (i : Nat) (routes1 routes2 : List Route) (t1 t2 : TrieNode),
      routes1.Perm routes2 →
      (∀ r ∈ routes1, Seg.param ∉ r.segments) →
      buildNode fuel i routes1 = .ok t1 → buildNode fuel i routes2 = .ok t2 →
      TrieEquiv t1 t2 := by
  induction fuel with
  | zero => intro i r1 r2 t1 t2 _ _ h1 _; exact absurd h1 (by simp [buildNode])
  | succ f ih =>
    intro i routes1 routes2 t1 t2 hperm hpf h1 h2
    rw [buildNode_succ] at h1 h2
    have hpermf : (routes1.filter (isExactAt i)).Perm (routes2.filter (isExactAt i)) :=
      hperm.filter _
    cases hb1 : findHighestPriorityRoute (routes1.filter (isExactAt i)) with
    | error e => rw [hb1] at h1; simp at h1
    | ok best1 =>
    rw [hb1] at h1
    cases hb2 : findHighestPriorityRoute (routes2.filter (isExactAt i)) with
    | error e => rw [hb2] at h2; simp at h2
    | ok best2 =>
    rw [hb2] at h2
    have hbesteq : best1 = best2 := by
      cases hex1 : routes1.filter (isExactAt i) with
      | nil =>
        have hex2 : routes2.filter (isExactAt i) = [] := by
          rw [hex1] at hpermf
          exact List.Perm.eq_nil hpermf.symm
        rw [hex1, fhpr_nil] at hb1
        rw [hex2, fhpr_nil] at hb2
        rw [← Except.ok.inj hb1, ← Except.ok.inj hb2]
      | cons x tail =>
        cases tail with
        | nil =>
          have hex2 : routes2.filter (isExactAt i) = [x] := by
            rw [hex1] at hpermf
            exact List.perm_singleton.mp hpermf.symm
          rw [hex1, fhpr_single] at hb1
          rw [hex2, fhpr_single] at hb2
          rw [← Except.ok.inj hb1, ← Except.ok.inj hb2]
        | cons y tail2 =>
          exfalso
          have hx : x ∈ routes1.filter (isExactAt i) := by rw [hex1]; simp
          have hy : y ∈ routes1.filter (isExactAt i) := by rw [hex1]; simp
          rw [hex1, fhpr_paramFree_two tail2
            (hpf x (List.mem_filter.mp hx).1) (hpf y (List.mem_filter.mp hy).1)] at hb1
          exact absurd hb1 (by simp)
    subst hbesteq
    cases hc1 : mapME (fun seg =>
        (buildNode f (i + 1) (childRoutesAt i seg routes1)).map
          (fun child => (seg, child))) (nextSegmentsAt i routes1) with
    | error e => rw [hc1] at h1; simp at h1
    | ok children1 =>
    rw [hc1] at h1
    cases hc2 : mapME (fun seg =>
        (buildNode f (i + 1) (childRoutesAt i seg routes2)).map
          (fun child => (seg, child))) (nextSegmentsAt i routes2) with
    | error e => rw [hc2] at h2; simp at h2
    | ok children2 =>
    rw [hc2] at h2
    have ht1 : (Except.ok (TrieNode.mk (best1.map
        (fun r => ⟨r.pattern, r.params⟩)) children1 false) :
        Except RouteError TrieNode) = .ok t1 := h1
    have ht2 : (Except.ok (TrieNode.mk (best1.map
        (fun r => ⟨r.pattern, r.params⟩)) children2 false) :
        Except RouteError TrieNode) = .ok t2 := h2
    rw [← Except.ok.inj ht1, ← Except.ok.inj ht2]
    have hok1 := (mapME_ok_all hc1).1
    have hch1 := (mapME_ok_all hc1).2
    have hok2 := (mapME_ok_all hc2).1
    have hch2 := (mapME_ok_all hc2).2
    have hok1' : ∀ seg ∈ nextSegmentsAt i routes1,
        ((fun seg => buildNode f (i + 1) (childRoutesAt i seg routes1)) seg).isOk = true := by
      intro seg hs
      have := hok1 seg hs
      rwa [exceptMap_isOk] at this
    have hok2' : ∀ seg ∈ nextSegmentsAt i routes2,
        ((fun seg => buildNode f (i + 1) (childRoutesAt i seg routes2)) seg).isOk = true := by
      intro seg hs
      have := hok2 seg hs
      rwa [exceptMap_isOk] at this
    refine TrieEquiv.mk _ _ _ _ _ _ rfl rfl ?_ ?_
    · intro k
      rw [hch1, hch2,
        children_lookup_isSome (fun seg => buildNode f (i + 1) (childRoutesAt i seg routes1))
          (nextSegmentsAt i routes1) hok1' k,
        children_lookup_isSome (fun seg => buildNode f (i + 1) (childRoutesAt i seg routes2))
          (nextSegmentsAt i routes2) hok2' k,
        decide_eq_decide, mem_nextSegmentsAt, mem_nextSegmentsAt]
      constructor
      · rintro ⟨r, hr, hex, hget⟩
        exact ⟨r, hperm.mem_iff.mp hr, hex, hget⟩
      · rintro ⟨r, hr, hex, hget⟩
        exact ⟨r, hperm.mem_iff.mpr hr, hex, hget⟩
    · intro k ct1 ct2 hl1 hl2
      rw [hch1] at hl1
      rw [hch2] at hl2
      have hg1 := children_lookup_some
        (fun seg => buildNode f (i + 1) (childRoutesAt i seg routes1))
        (nextSegmentsAt i routes1) k ct1 hl1
      have hg2 := children_lookup_some
        (fun seg => buildNode f (i + 1) (childRoutesAt i seg routes2))
        (nextSegmentsAt i routes2) k ct2 hl2
      exact ih (i + 1) (childRoutesAt i k routes1) (childRoutesAt i k routes2) ct1 ct2
        (hperm.filter _)
        (fun r hr => hpf r (mem_childRoutesAt.mp hr).1)
        hg1 hg2

/-! ### Claim C5: precedence is independent of registration order -/

/-- Claim C5: if construction succeeds on a pattern list, it succeeds on
every permutation of that list, and the two routers return equal results
(same route string and same params) for every input path. -/
theorem route_precedence_perm_invariant :
    ∀ (patterns patterns' : List String), patterns.Perm patterns' →
      ∀ t, constructRouter patterns = .ok t →
        ∃ t', constructRouter patterns' = .ok t' ∧
          ∀ path, matchPath t path = matchPath t' path := by
  intro ps ps' hperm t ht
  cases hmap : mapME parseRoute ps with
  | error e =>
    simp only [constructRouter, bind, Except.bind, hmap] at ht
    exact absurd ht (by simp)
  | ok routes =>
  have htT : constructTrie routes = .ok t := by
    simp only [constructRouter, bind, Except.bind, hmap] at ht
    exact ht
  unfold constructTrie at htT
  have hall := (mapME_ok_all hmap).1
  have hroutes := (mapME_ok_all hmap).2
  have hall' : ∀ x ∈ ps', (parseRoute x).isOk = true :=
    fun x hx => hall x (hperm.mem_iff.mpr hx)
  have hmap' : mapME parseRoute ps' =
      .ok (ps'.filterMap (fun x => (parseRoute x).toOption)) :=
    mapME_ok_of_all hall'
  have hpermR : routes.Perm (ps'.filterMap (fun x => (parseRoute x).toOption)) := by
    rw [hroutes]
    exact hperm.filterMap _
  have hpf : ∀ r ∈ routes, Seg.param ∉ r.segments := parsed_routes_paramFree hmap
  have hpf' : ∀ r ∈ ps'.filterMap (fun x => (parseRoute x).toOption),
      Seg.param ∉ r.segments := parsed_routes_paramFree hmap'
  have hpw : routes.Pairwise (fun r1 r2 => r1.segments ≠ r2.segments) := by
    rw [List.pairwise_iff_forall_sublist]
    intro a b hsub hseg
    exact buildNode_error_of_dup (maxSegmentsLength routes + 1) 0 routes a b hsub hseg
      (fun r _ => Nat.zero_le _) hpf t htT
  have hpw' : (ps'.filterMap (fun x => (parseRoute x).toOption)).Pairwise
      (fun r1 r2 => r1.segments ≠ r2.segments) :=
    (List.Perm.pairwise_iff (fun h h2 => h h2.symm) hpermR).mp hpw
  obtain ⟨t', ht'⟩ := buildNode_ok_of_distinct
    (maxSegmentsLength (ps'.filterMap (fun x => (parseRoute x).toOption)) + 1) 0
    (ps'.filterMap (fun x => (parseRoute x).toOption))
    (by omega)
    (fun r hr => ⟨Nat.zero_le _, by have := mem_le_maxSegmentsLength hr; omega⟩)
    hpf'
    (fun r1 _ r2 _ j hj => absurd hj (by omega))
    hpw'
  have hfueleq := maxSegmentsLength_perm hpermR
  have htT' : buildNode (maxSegmentsLength routes + 1) 0
      (ps'.filterMap (fun x => (parseRoute x).toOption)) = .ok t' := by
    rw [hfueleq]
    exact ht'
  have hequiv : TrieEquiv t t' :=
    buildNode_perm_equiv (maxSegmentsLength routes + 1) 0 routes
      (ps'.filterMap (fun x => (parseRoute x).toOption)) t t' hpermR hpf htT htT'
  refine ⟨t', ?_, fun path => matchPath_equiv hequiv path⟩
  simp only [constructRouter, bind, Except.bind, hmap']
  unfold constructTrie
  exact ht'

theorem route_precedence_perm_invariant_witness :
    ∃ t', constructRouter ["b", "a"] = .ok t' ∧
      ∀ path, matchPath (TrieNode.mk none
        [(.lit "a", TrieNode.mk (some ⟨"a", []⟩) [] false),
         (.lit "b", TrieNode.mk (some ⟨"b", []⟩) [] false)] false) path =
        matchPath t' path :=
  route_precedence_perm_invariant ["a", "b"] ["b", "a"]
    (List.Perm.swap "b" "a" []) _ rfl

end TsStd
